import Mathlib

/-!
Verification of the `GymDesktopExtractor` event-reconstruction engine
(`src/stages/extraction/simple-extractor.ts`, richer two-vocabulary variant).

Modelling conventions for the shallow embedding:
* Event times and pixel coordinates are integers (`ℤ`), as in the recorded
  telemetry (`time` is epoch milliseconds, positions are pixels).
* JavaScript `number` arithmetic inside the path resampler (square roots,
  divisions, `Math.floor`) is modelled twice: `resamplePoints` idealizes
  the doubles as exact reals with Lean's total division (`x / 0 = 0`) and
  is what the engine invokes; `resamplePointsIEEE` carries IEEE-754 `NaN`
  explicitly (`Option ℝ`, `none` for a non-finite value) and is used where
  a claim's truth depends on `NaN` propagation (`0 / 0` at target count 1
  and on zero-length bounding segments).
* JavaScript `Set` objects are insertion-ordered lists without duplicates;
  `Array.from` returns capture order.
* JavaScript truthiness is modelled exactly where the source relies on it:
  a `number | null` test such as `mouseDownTime &&` is false at `0`,
  `!textStartTime` is true at `null` and at `0`, `mouseDownTime || time`
  falls back to `time` when `mouseDownTime` is `null` or `0`, and a string
  test `currentText &&` means the string is non-empty.
-/

set_option maxRecDepth 8192

/-- A path sample `{time, x, y}` as stored in `accumulatedPoints` and
returned by `resamplePoints` (all integer-valued: the source floors each
resampled coordinate). -/
structure IPoint where
  time : ℤ
  x : ℤ
  y : ℤ
deriving DecidableEq

def origin : IPoint := ⟨0, 0, 0⟩

/-- The `data` payload of a raw input event; every field is optional. -/
structure EventData where
  x : Option ℤ
  y : Option ℤ
  key : Option String
  button : Option String
  delta : Option ℤ
deriving DecidableEq

/-- A raw input event `{event, data, time}` from the JSONL log. -/
structure InputEvent where
  event : String
  data : EventData
  time : ℤ
deriving DecidableEq

/-- An output action of `processEvents`: the `type` field of the source's
`ProcessedEvent` record became a constructor, `timestamp` and the variant
payload became the arguments. -/
inductive ProcessedEvent where
  | mouseclick (timestamp : ℤ) (x : ℤ) (y : ℤ)
  | mousedrag (timestamp : ℤ) (coordinates : List IPoint)
  | type (timestamp : ℤ) (text : String)
  | hotkey (timestamp : ℤ) (text : String)
  | mousewheel (timestamp : ℤ) (delta : ℤ)
deriving DecidableEq

def ProcessedEvent.timestamp : ProcessedEvent → ℤ
  | .mouseclick ts _ _ => ts
  | .mousedrag ts _ => ts
  | .type ts _ => ts
  | .hotkey ts _ => ts
  | .mousewheel ts _ => ts

def ProcessedEvent.isHotkey : ProcessedEvent → Bool
  | .hotkey _ _ => true
  | _ => false

def ProcessedEvent.isType : ProcessedEvent → Bool
  | .type _ _ => true
  | _ => false

def ProcessedEvent.isDrag : ProcessedEvent → Bool
  | .mousedrag _ _ => true
  | _ => false

def ProcessedEvent.isClick : ProcessedEvent → Bool
  | .mouseclick _ _ _ => true
  | _ => false

/-- `key.toString().toLowerCase()` of the source. -/
def toLowerCase (s : String) : String := String.mk (s.data.map Char.toLower)

/-- Association-list lookup modelling a JS object-literal table. -/
def lookupStr (m : List (String × String)) (k : String) : Option String :=
  (m.find? (fun p => p.1 = k)).map (fun p => p.2)

/-- The `symbolMap` table: unshifted printable characters for symbol and
digit keys (both key vocabularies). -/
def symbolMap : List (String × String) :=
  [("Space", " "),
   ("BackTick", "`"), ("BackSlash", "\\"), ("ForwardSlash", "/"), ("Plus", "+"),
   ("LeftSquareBracket", "["), ("RightSquareBracket", "]"), ("Apostrophe", "\x27"),
   ("Hash", "#"), ("Add", "+"), ("Subtract", "-"), ("Multiply", "*"),
   ("Divide", "/"), ("Decimal", "."), ("FullStop", "."),
   ("BackQuote", "`"), ("Slash", "/"), ("Equal", "="), ("Dot", "."),
   ("LeftBracket", "["), ("RightBracket", "]"), ("Quote", "\x27"),
   ("Zero", "0"), ("One", "1"), ("Two", "2"), ("Three", "3"), ("Four", "4"),
   ("Five", "5"), ("Six", "6"), ("Seven", "7"), ("Eight", "8"), ("Nine", "9"),
   ("Num0", "0"), ("Num1", "1"), ("Num2", "2"), ("Num3", "3"), ("Num4", "4"),
   ("Num5", "5"), ("Num6", "6"), ("Num7", "7"), ("Num8", "8"), ("Num9", "9"),
   ("Minus", "-"), ("Comma", ","), ("SemiColon", ";")]

/-- The `shiftSymbolMap` table: shifted printable characters. -/
def shiftSymbolMap : List (String × String) :=
  [("Zero", ")"), ("One", "!"), ("Two", "@"), ("Three", "#"), ("Four", "$"),
   ("Five", "%"), ("Six", "^"), ("Seven", "&"), ("Eight", "*"), ("Nine", "("),
   ("Num0", ")"), ("Num1", "!"), ("Num2", "@"), ("Num3", "#"), ("Num4", "$"),
   ("Num5", "%"), ("Num6", "^"), ("Num7", "&"), ("Num8", "*"), ("Num9", "("),
   ("BackTick", "~"), ("Plus", "+"), ("LeftSquareBracket", "\x7b"),
   ("RightSquareBracket", "\x7d"), ("BackSlash", "|"), ("Apostrophe", "\""),
   ("ForwardSlash", "?"), ("FullStop", ">"),
   ("BackQuote", "~"), ("Equal", "+"), ("LeftBracket", "\x7b"),
   ("RightBracket", "\x7d"), ("Slash", "?"), ("Dot", ">"), ("Quote", "\""),
   ("Minus", "_"), ("Comma", "<"), ("SemiColon", ":")]

/-- The `isSpecialKey` membership set. -/
def specialKeys : List String :=
  ["Shift", "LeftCtrl", "RightCtrl", "LeftAlt", "RightAlt",
   "Return", "Backspace", "Tab", "Escape",
   "Left", "Right", "Up", "Down",
   "Home", "End", "PageUp", "PageDown",
   "Insert", "Delete",
   "F1", "F2", "F3", "F4", "F5", "F6", "F7", "F8", "F9", "F10", "F11", "F12",
   "CapsLock", "Pause", "PrintScreen", "Numlock",
   "ShiftLeft", "ShiftRight", "ControlLeft", "ControlRight",
   "Alt", "AltGr", "MetaLeft", "MetaRight",
   "LeftArrow", "RightArrow", "UpArrow", "DownArrow",
   "Function"]

def isSpecialKey (k : String) : Bool := specialKeys.contains k

/-- The `isComboKey` membership set (modifier-class keys). -/
def comboKeys : List String :=
  ["Shift", "LeftCtrl", "RightCtrl", "LeftAlt", "RightAlt",
   "ShiftLeft", "ShiftRight", "ControlLeft", "ControlRight",
   "Alt", "AltGr", "MetaLeft", "MetaRight"]

def isComboKey (k : String) : Bool := comboKeys.contains k

/-- `/^[A-Z]$/.test(key)`. -/
def isWindowsLetter (s : String) : Bool :=
  match s.data with
  | [c] => decide ('A' ≤ c) && decide (c ≤ 'Z')
  | _ => false

/-- `/^Key[A-Z]$/.test(key)`. -/
def isMacLetter (s : String) : Bool :=
  match s.data with
  | ['K', 'e', 'y', c] => decide ('A' ≤ c) && decide (c ≤ 'Z')
  | _ => false

/-- `key.slice(3)`: the letter of a Mac-format `KeyX` identifier. -/
def macLetterOf (s : String) : String := String.mk (s.data.drop 3)

def shiftKeyName : String := "Shift"
def shiftLeftKeyName : String := "ShiftLeft"
def shiftRightKeyName : String := "ShiftRight"
def leftButtonName : String := "Left"
def sepDash : String := "-"

/-- Euclidean distance between two consecutive path samples
(`Math.sqrt(dx*dx + dy*dy)` in `resamplePoints`). -/
noncomputable def ptDist (p q : IPoint) : ℝ :=
  Real.sqrt (((q.x - p.x : ℤ) : ℝ) ^ 2 + ((q.y - p.y : ℤ) : ℝ) ^ 2)

/-- The cumulative arc-length table: `cumLen points i` is `segments[i]` of
the source for every index `i < points.length` (entry `0` is `0`, entry
`i+1` adds the distance of segment `i → i+1`). -/
noncomputable def cumLen (points : List IPoint) : ℕ → ℝ
  | 0 => 0
  | i + 1 => cumLen points i + ptDist (points.getD i origin) (points.getD (i + 1) origin)

/-- The segment-search `while` loop: starting from `segIdx`, advance while
`segIdx < segments.length && segments[segIdx] < targetLength`. -/
noncomputable def findSegIdx (points : List IPoint) (target : ℝ) (segIdx : ℕ) : ℕ :=
  if h : segIdx < points.length ∧ cumLen points segIdx < target then
    findSegIdx points target (segIdx + 1)
  else segIdx
termination_by points.length - segIdx
decreasing_by omega

/-- One iteration of the resampling loop: the point pushed for index `i`. -/
noncomputable def resampleAt (points : List IPoint) (numPoints : ℕ) (totalLength : ℝ)
    (i : ℕ) : IPoint :=
  let targetLength : ℝ := ((i : ℝ) / ((numPoints : ℝ) - 1)) * totalLength
  let segIdx := findSegIdx points targetLength 1
  let prevIdx := segIdx - 1
  let segmentStart := cumLen points prevIdx
  let segmentEnd := cumLen points segIdx
  let t := (targetLength - segmentStart) / (segmentEnd - segmentStart)
  let p0 := points.getD prevIdx origin
  let p1 := points.getD segIdx origin
  ⟨⌊(p0.time : ℝ) + ((p1.time : ℝ) - (p0.time : ℝ)) * t⌋,
   ⌊(p0.x : ℝ) + ((p1.x : ℝ) - (p0.x : ℝ)) * t⌋,
   ⌊(p0.y : ℝ) + ((p1.y : ℝ) - (p0.y : ℝ)) * t⌋⟩

/-- `resamplePoints(points, numPoints)`: arc-length resampling of a pointer
path to `numPoints` control points (the engine always passes the default
count `8` at its only call site).  This translation idealizes the
JavaScript doubles as exact reals with Lean's total division (`x / 0 = 0`);
`resamplePointsIEEE` below is the variant that carries the program's NaN
behaviour explicitly. -/
noncomputable def resamplePoints (points : List IPoint) (numPoints : ℕ) : List IPoint :=
  if points.length ≤ 1 then points
  else (List.range numPoints).map
    (resampleAt points numPoints (cumLen points (points.length - 1)))

/-- NaN-faithful translation of the resampler's arithmetic.  A JavaScript
double is modelled as `Option ℝ`: `some x` is the finite value `x`, `none`
is a non-finite value.  Within this algorithm the only non-finite value
that can arise is `NaN` (from `0 / 0`; the cumulative lengths and all
interpolation inputs are finite). Addition, subtraction and multiplication
propagate `none` exactly as IEEE propagates NaN. -/
def nadd : Option ℝ → Option ℝ → Option ℝ
  | some a, some b => some (a + b)
  | _, _ => none

def nsub : Option ℝ → Option ℝ → Option ℝ
  | some a, some b => some (a - b)
  | _, _ => none

def nmul : Option ℝ → Option ℝ → Option ℝ
  | some a, some b => some (a * b)
  | _, _ => none

open Classical in
/-- Division: `none` when either operand is non-finite or the divisor is
`0` (IEEE gives `NaN` for `0 / 0` — the only zero-divisor case reachable
in this algorithm — and `±Infinity` otherwise, all non-finite). -/
noncomputable def ndiv : Option ℝ → Option ℝ → Option ℝ
  | some a, some b => if b = 0 then none else some (a / b)
  | _, _ => none

/-- JavaScript `<`: false when an operand is NaN. -/
def nlt : Option ℝ → Option ℝ → Prop
  | some a, some b => a < b
  | _, _ => False

/-- `Math.floor`: `Math.floor(NaN)` is `NaN`. -/
noncomputable def nfloor : Option ℝ → Option ℤ
  | some a => some ⌊a⌋
  | none => none

/-- A resampled point of the NaN-faithful model: a `none` coordinate is one
the program computes as NaN. -/
structure NPoint where
  time : Option ℤ
  x : Option ℤ
  y : Option ℤ
deriving DecidableEq

def IPoint.toNPoint (p : IPoint) : NPoint := ⟨some p.time, some p.x, some p.y⟩

open Classical in
/-- The segment-search `while` loop over a possibly-NaN target length: a
comparison against NaN is false, so the loop stops immediately. -/
noncomputable def findSegIdxIEEE (points : List IPoint) (target : Option ℝ) (segIdx : ℕ) : ℕ :=
  if h : segIdx < points.length ∧ nlt (some (cumLen points segIdx)) target then
    findSegIdxIEEE points target (segIdx + 1)
  else segIdx
termination_by points.length - segIdx
decreasing_by omega

/-- One iteration of the resampling loop with IEEE NaN carried explicitly:
`targetLength` is `(i / (numPoints - 1)) * totalLength` (NaN when
`numPoints = 1`), and `t` is NaN when the bounding segment has zero length
or the target is NaN. -/
noncomputable def resampleAtIEEE (points : List IPoint) (numPoints : ℕ) (totalLength : ℝ)
    (i : ℕ) : NPoint :=
  let targetLength : Option ℝ :=
    nmul (ndiv (some (i : ℝ)) (some ((numPoints : ℝ) - 1))) (some totalLength)
  let segIdx := findSegIdxIEEE points targetLength 1
  let prevIdx := segIdx - 1
  let segmentStart := cumLen points prevIdx
  let segmentEnd := cumLen points segIdx
  let t := ndiv (nsub targetLength (some segmentStart)) (some (segmentEnd - segmentStart))
  let p0 := points.getD prevIdx origin
  let p1 := points.getD segIdx origin
  ⟨nfloor (nadd (some (p0.time : ℝ))
      (nmul (nsub (some (p1.time : ℝ)) (some (p0.time : ℝ))) t)),
   nfloor (nadd (some (p0.x : ℝ))
      (nmul (nsub (some (p1.x : ℝ)) (some (p0.x : ℝ))) t)),
   nfloor (nadd (some (p0.y : ℝ))
      (nmul (nsub (some (p1.y : ℝ)) (some (p0.y : ℝ))) t))⟩

/-- `resamplePoints` with the program's NaN behaviour carried explicitly
(the guard returns the input's — finite — points unchanged). -/
noncomputable def resamplePointsIEEE (points : List IPoint) (numPoints : ℕ) : List NPoint :=
  if points.length ≤ 1 then points.map IPoint.toNPoint
  else (List.range numPoints).map
    (resampleAtIEEE points numPoints (cumLen points (points.length - 1)))

/-- The engine's per-session mutable state. -/
structure ExtractorState where
  processed : List ProcessedEvent
  mouseDown : Bool
  mouseDownTime : Option ℤ
  mouseDownPos : Option (ℤ × ℤ)
  accumulatedPoints : List IPoint
  activeModifiers : List String
  sequenceModifiers : List String
  currentText : String
  textStartTime : Option ℤ
  lastKeyTime : Option ℤ
  lastKnownPos : Option (ℤ × ℤ)
deriving DecidableEq

def initState : ExtractorState :=
  ⟨[], false, none, none, [], [], [], "", none, none, none⟩

/-- `Set.add`: append if absent (JS sets preserve insertion order). -/
def setAdd (s : List String) (k : String) : List String :=
  if k ∈ s then s else s ++ [k]

/-- `Set.delete`. -/
def setDelete (s : List String) (k : String) : List String :=
  s.filter (fun x => x ≠ k)

def clickThresholdPx : ℤ := 5
def clickThresholdMs : ℤ := 500

/-- `Math.sqrt(Math.pow(lastKnownPos.x - mouseDownPos.x, 2) + Math.pow(
lastKnownPos.y - mouseDownPos.y, 2))`: the Euclidean distance between the
down position `p` and the last known position `q`. -/
noncomputable def posDist (p q : ℤ × ℤ) : ℝ :=
  Real.sqrt (((q.1 - p.1 : ℤ) : ℝ) ^ 2 + ((q.2 - p.2 : ℤ) : ℝ) ^ 2)

/-- `distance <= c` for the click test. -/
noncomputable def distLE (p q : ℤ × ℤ) (c : ℤ) : Prop := posDist p q ≤ (c : ℝ)

instance (p q : ℤ × ℤ) (c : ℤ) : Decidable (distLE p q c) :=
  decidable_of_iff (0 ≤ c ∧ (q.1 - p.1) ^ 2 + (q.2 - p.2) ^ 2 ≤ c ^ 2) (by
    unfold distLE posDist
    rw [Real.sqrt_le_iff]
    constructor
    · rintro ⟨h1, h2⟩
      exact ⟨by exact_mod_cast h1, by exact_mod_cast h2⟩
    · rintro ⟨h1, h2⟩
      exact ⟨by exact_mod_cast h1, by exact_mod_cast h2⟩)

/-- The `flushText` closure: emit a `type` action when text is pending and
a start time exists, then clear the text buffer and `sequenceModifiers`. -/
def flushText (st : ExtractorState) : ExtractorState :=
  if st.currentText ≠ "" ∧ st.textStartTime ≠ none then
    { st with
        processed := st.processed ++
          [ProcessedEvent.type (st.textStartTime.getD 0) st.currentText],
        currentText := "",
        textStartTime := none,
        sequenceModifiers := [] }
  else st

/-- `lastKeyTime !== null && time - lastKeyTime > 1000`. -/
def idleGap (lastKeyTime : Option ℤ) (time : ℤ) : Bool :=
  match lastKeyTime with
  | some lk => time - lk > 1000
  | none => false

/-- The idle-timeout check run before each event's `switch`:
`if (currentText && lastKeyTime !== null && time - lastKeyTime > 1000) flushText()`. -/
def idleCheck (st : ExtractorState) (time : ℤ) : ExtractorState :=
  if st.currentText ≠ "" ∧ idleGap st.lastKeyTime time then flushText st
  else st

/-- Append one typed character: sets `textStartTime` when it is `null` or
`0` (JS `!textStartTime`), records `lastKeyTime`, extends `currentText`. -/
def addChar (st : ExtractorState) (time : ℤ) (c : String) : ExtractorState :=
  { st with
      textStartTime :=
        if st.textStartTime = none ∨ st.textStartTime = some 0 then some time
        else st.textStartTime,
      lastKeyTime := some time,
      currentText := if st.currentText = "" then c else st.currentText ++ c }

/-- The `mousemove` case. -/
def handleMousemove (st : ExtractorState) (e : InputEvent) (time : ℤ) : ExtractorState :=
  match e.data.x, e.data.y with
  | some x, some y =>
    let st2 := { st with lastKnownPos := some (x, y) }
    if st2.mouseDown then
      { st2 with
          accumulatedPoints := st2.accumulatedPoints ++
            [⟨time - (match st2.mouseDownTime with
                      | some t => if t = 0 then time else t
                      | none => time), x, y⟩] }
    else st2
  | _, _ => st

/-- The `mousedown` case. -/
def handleMousedown (st : ExtractorState) (e : InputEvent) (time : ℤ) : ExtractorState :=
  let st2 := flushText st
  if e.data.button = some leftButtonName then
    match st2.lastKnownPos with
    | some pos =>
      { st2 with
          mouseDown := true,
          mouseDownTime := some time,
          mouseDownPos := some pos,
          accumulatedPoints := [⟨0, pos.1, pos.2⟩] }
    | none => st2
  else st2

/-- The `mouseup` case.  The JS guard `mouseDownPos && mouseDownTime &&
lastKnownPos` is falsy when `mouseDownTime` is `null` or `0`. -/
noncomputable def handleMouseup (st : ExtractorState) (e : InputEvent) (time : ℤ) :
    ExtractorState :=
  if e.data.button = some leftButtonName then
    match st.mouseDownPos, st.mouseDownTime, st.lastKnownPos with
    | some dpos, some dt, some lpos =>
      if dt = 0 then st
      else
        let duration := time - dt
        let st2 :=
          if distLE dpos lpos clickThresholdPx ∧ duration ≤ clickThresholdMs then
            { st with
                processed := st.processed ++
                  [ProcessedEvent.mouseclick dt dpos.1 dpos.2] }
          else if st.accumulatedPoints.length > 1 then
            { st with
                processed := st.processed ++
                  [ProcessedEvent.mousedrag dt (resamplePoints st.accumulatedPoints 8)] }
          else st
        { st2 with
            mouseDown := false,
            mouseDownTime := none,
            mouseDownPos := none,
            accumulatedPoints := [] }
    | _, _, _ => st
  else st

/-- The `keydown` case (key already known present and non-empty). -/
def handleKeydown (st : ExtractorState) (k : String) (time : ℤ) : ExtractorState :=
  if isComboKey k then
    { st with
        activeModifiers := setAdd st.activeModifiers k,
        sequenceModifiers := setAdd st.sequenceModifiers k }
  else if st.activeModifiers ≠ [] ∧ shiftKeyName ∉ st.activeModifiers then
    { st with
        processed := st.processed ++
          [ProcessedEvent.hotkey time
            (String.intercalate sepDash (st.activeModifiers ++ [toLowerCase k]))],
        activeModifiers := [],
        sequenceModifiers := [] }
  else if isSpecialKey k then
    let st2 := flushText st
    { st2 with processed := st2.processed ++ [ProcessedEvent.hotkey time k] }
  else
    let hasShift := shiftKeyName ∈ st.activeModifiers
    let mappedKey :=
      if hasShift then
        match lookupStr shiftSymbolMap k with
        | some v => some v
        | none => lookupStr symbolMap k
      else lookupStr symbolMap k
    match mappedKey with
    | some v => addChar st time v
    | none =>
      let hasShift2 := shiftKeyName ∈ st.activeModifiers ∨
        shiftLeftKeyName ∈ st.activeModifiers ∨ shiftRightKeyName ∈ st.activeModifiers
      let charToAdd :=
        if isWindowsLetter k then (if hasShift2 then k else toLowerCase k)
        else if isMacLetter k then
          (if hasShift2 then macLetterOf k else toLowerCase (macLetterOf k))
        else toLowerCase k
      addChar st time charToAdd

/-- The `keyup` case (key already known present and non-empty). -/
def handleKeyup (st : ExtractorState) (k : String) (time : ℤ) : ExtractorState :=
  if isSpecialKey k then
    let st2 := { st with activeModifiers := setDelete st.activeModifiers k }
    if st2.activeModifiers.length = 0 then
      let st3 :=
        if st2.sequenceModifiers.length > 0 ∧ st2.currentText = "" then
          { st2 with
              processed := st2.processed ++
                [ProcessedEvent.hotkey time
                  (String.intercalate sepDash st2.sequenceModifiers)] }
        else st2
      { st3 with sequenceModifiers := [] }
    else st2
  else st

/-- The `mousewheel` case. -/
def handleMousewheel (st : ExtractorState) (e : InputEvent) (time : ℤ) : ExtractorState :=
  let st2 := flushText st
  match e.data.delta with
  | some d => { st2 with processed := st2.processed ++ [ProcessedEvent.mousewheel time d] }
  | none => st2

/-- One iteration of the event loop: compute the epoch-relative time, run
the idle-timeout check, then dispatch on the event kind. -/
noncomputable def stepEvent (st : ExtractorState) (e : InputEvent) (epoch : ℤ) :
    ExtractorState :=
  let time := e.time - epoch
  let st1 := idleCheck st time
  match e.event with
  | "mousemove" => handleMousemove st1 e time
  | "mousedown" => handleMousedown st1 e time
  | "mouseup" => handleMouseup st1 e time
  | "keydown" =>
    (match e.data.key with
     | some k => if k ≠ "" then handleKeydown st1 k time else st1
     | none => st1)
  | "keyup" =>
    (match e.data.key with
     | some k => if k ≠ "" then handleKeyup st1 k time else st1
     | none => st1)
  | "mousewheel" => handleMousewheel st1 e time
  | _ => st1

/-- The event loop folded over the whole input list. -/
noncomputable def runEvents (epoch : ℤ) (st : ExtractorState) :
    List InputEvent → ExtractorState
  | [] => st
  | e :: rest => runEvents epoch (stepEvent st e epoch) rest

/-- `processEvents`: empty input short-circuits to `[]`; otherwise the
epoch is the first event's time, the loop runs over all events, and a
final `flushText` emits any remaining text. -/
noncomputable def processEvents (events : List InputEvent) : List ProcessedEvent :=
  match events with
  | [] => []
  | e0 :: _ => (flushText (runEvents e0.time initState events)).processed

/-- What a single loop iteration at relative time `time` may append to the
output: hotkeys and wheel actions are stamped at `time`, and any drag's
coordinates come from resampling an accumulated path of length `> 1` with
the default count `8` (`type` and `mouseclick` actions are unconstrained
here). -/
def EmitOK (time : ℤ) : ProcessedEvent → Prop
  | .hotkey ts _ => ts = time
  | .mousewheel ts _ => ts = time
  | .mousedrag _ coords => ∃ pts : List IPoint, 1 < pts.length ∧ coords = resamplePoints pts 8
  | _ => True

/-- `l2` extends `l` by a suffix of actions all satisfying `P`. -/
def ProcAppend (P : ProcessedEvent → Prop) (l l2 : List ProcessedEvent) : Prop :=
  ∃ d, l2 = l ++ d ∧ ∀ a ∈ d, P a

/-- The timestamps of the hotkey and wheel actions of an output list, in
emission order. -/
def hwStamps (l : List ProcessedEvent) : List ℤ :=
  l.filterMap (fun a =>
    match a with
    | .hotkey ts _ => some ts
    | .mousewheel ts _ => some ts
    | _ => none)

/-- Every drag action in the list carries exactly 8 coordinate points. -/
def DragsOK (l : List ProcessedEvent) : Prop :=
  ∀ a ∈ l, ∀ ts coords, a = ProcessedEvent.mousedrag ts coords → coords.length = 8

/-- Raw-event constructors used by the concrete runs below. -/
def mmove (t x y : ℤ) : InputEvent := ⟨"mousemove", ⟨some x, some y, none, none, none⟩, t⟩

def mdown (t : ℤ) : InputEvent := ⟨"mousedown", ⟨none, none, none, some leftButtonName, none⟩, t⟩

def mdownAt (t x y : ℤ) : InputEvent :=
  ⟨"mousedown", ⟨some x, some y, none, some leftButtonName, none⟩, t⟩

def mup (t : ℤ) : InputEvent := ⟨"mouseup", ⟨none, none, none, some leftButtonName, none⟩, t⟩

def mupAt (t x y : ℤ) : InputEvent :=
  ⟨"mouseup", ⟨some x, some y, none, some leftButtonName, none⟩, t⟩

def kdown (t : ℤ) (k : String) : InputEvent := ⟨"keydown", ⟨none, none, some k, none, none⟩, t⟩

def kup (t : ℤ) (k : String) : InputEvent := ⟨"keyup", ⟨none, none, some k, none, none⟩, t⟩

def wheelEv (t d : ℤ) : InputEvent := ⟨"mousewheel", ⟨none, none, none, none, some d⟩, t⟩

/-- Ctrl, then Shift, then the letter C: the held-modifier set contains
Shift next to a non-Shift modifier when C arrives. -/
def c1cex : List InputEvent := [kdown 0 ("LeftCtrl"), kdown 10 ("Shift"), kdown 20 ("C")]

/-- Type a letter, then press Ctrl and C: the chord fires while text is
still buffered. -/
def c2cex : List InputEvent := [kdown 0 ("A"), kdown 10 ("LeftCtrl"), kdown 20 ("C")]

/-- A down/up pair whose `mousedown` lands on the session epoch
(relative time `0`), at distance exactly 5 and duration exactly 500. -/
def c5cex : List InputEvent := [mmove 5 0 0, mdown 5, mmove 100 3 4, mup 505]

/-- Pending text straddling a left-button click. -/
def c6cex : List InputEvent := [mmove 0 0 0, mdown 10, kdown 15 ("A"), mup 20, kdown 25 ("B")]

/-- The spec's literal two-event click example. -/
def c7cex : List InputEvent := [mdownAt 0 10 10, mupAt 100 10 10]

/-- The click example with a position-establishing `mousemove` and a
`mousedown` after the epoch. -/
def c7ok : List InputEvent := [mmove 0 10 10, mdown 5, mup 100]

/-- Ctrl at 0, C at 10, release C at 20, release Ctrl at 30. -/
def c8run : List InputEvent :=
  [kdown 0 ("LeftCtrl"), kdown 10 ("C"), kup 20 ("C"), kup 30 ("LeftCtrl")]

/-- A drag whose two accumulated samples coincide spatially (duration
above the click threshold forces the drag branch). -/
def c10run : List InputEvent := [mmove 0 0 0, mdown 10, mmove 600 0 0, mup 611]

/-- The accumulated path of `c10run` at its `mouseup`. -/
def c10path : List IPoint := [⟨0, 0, 0⟩, ⟨590, 0, 0⟩]

/-- A two-point path whose endpoints differ in `x`. -/
def c3path : List IPoint := [⟨0, 0, 0⟩, ⟨0, 3, 0⟩]

/-- A path of spatially coincident points (total arc length 0). -/
def c4path : List IPoint := [⟨0, 5, 5⟩, ⟨100, 5, 5⟩]

/-- Witness states for the step-level theorems. -/
def c1wState : ExtractorState :=
  { initState with activeModifiers := ["LeftCtrl"], sequenceModifiers := ["LeftCtrl"] }

def c5wStateA : ExtractorState :=
  { initState with
      mouseDownPos := some (0, 0), mouseDownTime := some 100, lastKnownPos := some (3, 4) }

def c5wStateB : ExtractorState :=
  { initState with
      mouseDownPos := some (0, 0), mouseDownTime := some 100, lastKnownPos := some (6, 0),
      accumulatedPoints := [⟨0, 0, 0⟩, ⟨10, 6, 0⟩] }

def c6wState : ExtractorState :=
  { initState with currentText := "hi", textStartTime := some 3, lastKeyTime := some 3 }

def c6wState2 : ExtractorState :=
  { initState with
      currentText := "hi", textStartTime := some 3, lastKeyTime := some 3,
      activeModifiers := ["LeftCtrl"], sequenceModifiers := ["LeftCtrl"] }

theorem ProcAppend.refl (P : ProcessedEvent → Prop) (l : List ProcessedEvent) :
    ProcAppend P l l :=
  ⟨[], (List.append_nil l).symm, by simp⟩

theorem ProcAppend.trans {P : ProcessedEvent → Prop} {l1 l2 l3 : List ProcessedEvent}
    (h1 : ProcAppend P l1 l2) (h2 : ProcAppend P l2 l3) : ProcAppend P l1 l3 := by
  obtain ⟨d1, rfl, hd1⟩ := h1
  obtain ⟨d2, rfl, hd2⟩ := h2
  refine ⟨d1 ++ d2, by simp, ?_⟩
  intro a ha
  rcases List.mem_append.1 ha with h | h
  exacts [hd1 a h, hd2 a h]

theorem ProcAppend.push {P : ProcessedEvent → Prop} {a : ProcessedEvent}
    (l : List ProcessedEvent) (h : P a) : ProcAppend P l (l ++ [a]) :=
  ⟨[a], rfl, by simpa⟩

theorem ProcAppend.mem_left {P : ProcessedEvent → Prop} {l l2 : List ProcessedEvent}
    {a : ProcessedEvent} (h : ProcAppend P l l2) (ha : a ∈ l) : a ∈ l2 := by
  obtain ⟨d, rfl, _⟩ := h
  exact List.mem_append_left _ ha

theorem ProcAppend.mono {P Q : ProcessedEvent → Prop} {l l2 : List ProcessedEvent}
    (h : ProcAppend P l l2) (hq : ∀ a, P a → Q a) : ProcAppend Q l l2 := by
  obtain ⟨d, rfl, hd⟩ := h
  exact ⟨d, rfl, fun a ha => hq a (hd a ha)⟩

@[simp] theorem flushText_mouseDown (st : ExtractorState) :
    (flushText st).mouseDown = st.mouseDown := by
  unfold flushText; split <;> rfl

@[simp] theorem flushText_mouseDownTime (st : ExtractorState) :
    (flushText st).mouseDownTime = st.mouseDownTime := by
  unfold flushText; split <;> rfl

@[simp] theorem flushText_mouseDownPos (st : ExtractorState) :
    (flushText st).mouseDownPos = st.mouseDownPos := by
  unfold flushText; split <;> rfl

@[simp] theorem flushText_accumulatedPoints (st : ExtractorState) :
    (flushText st).accumulatedPoints = st.accumulatedPoints := by
  unfold flushText; split <;> rfl

@[simp] theorem flushText_activeModifiers (st : ExtractorState) :
    (flushText st).activeModifiers = st.activeModifiers := by
  unfold flushText; split <;> rfl

@[simp] theorem flushText_lastKeyTime (st : ExtractorState) :
    (flushText st).lastKeyTime = st.lastKeyTime := by
  unfold flushText; split <;> rfl

@[simp] theorem flushText_lastKnownPos (st : ExtractorState) :
    (flushText st).lastKnownPos = st.lastKnownPos := by
  unfold flushText; split <;> rfl

theorem flushText_types (st : ExtractorState) :
    ProcAppend (fun a => ∃ ts s, a = ProcessedEvent.type ts s)
      st.processed (flushText st).processed := by
  unfold flushText
  split
  · exact ⟨[ProcessedEvent.type (st.textStartTime.getD 0) st.currentText], rfl, by simp⟩
  · exact ProcAppend.refl _ _

theorem idleCheck_cases (st : ExtractorState) (t : ℤ) :
    idleCheck st t = flushText st ∨ idleCheck st t = st := by
  unfold idleCheck
  split
  exacts [Or.inl rfl, Or.inr rfl]

@[simp] theorem idleCheck_mouseDown (st : ExtractorState) (t : ℤ) :
    (idleCheck st t).mouseDown = st.mouseDown := by
  rcases idleCheck_cases st t with h | h <;> simp [h]

@[simp] theorem idleCheck_mouseDownTime (st : ExtractorState) (t : ℤ) :
    (idleCheck st t).mouseDownTime = st.mouseDownTime := by
  rcases idleCheck_cases st t with h | h <;> simp [h]

@[simp] theorem idleCheck_mouseDownPos (st : ExtractorState) (t : ℤ) :
    (idleCheck st t).mouseDownPos = st.mouseDownPos := by
  rcases idleCheck_cases st t with h | h <;> simp [h]

@[simp] theorem idleCheck_accumulatedPoints (st : ExtractorState) (t : ℤ) :
    (idleCheck st t).accumulatedPoints = st.accumulatedPoints := by
  rcases idleCheck_cases st t with h | h <;> simp [h]

@[simp] theorem idleCheck_activeModifiers (st : ExtractorState) (t : ℤ) :
    (idleCheck st t).activeModifiers = st.activeModifiers := by
  rcases idleCheck_cases st t with h | h <;> simp [h]

@[simp] theorem idleCheck_lastKeyTime (st : ExtractorState) (t : ℤ) :
    (idleCheck st t).lastKeyTime = st.lastKeyTime := by
  rcases idleCheck_cases st t with h | h <;> simp [h]

@[simp] theorem idleCheck_lastKnownPos (st : ExtractorState) (t : ℤ) :
    (idleCheck st t).lastKnownPos = st.lastKnownPos := by
  rcases idleCheck_cases st t with h | h <;> simp [h]

theorem flushText_emitOK (st : ExtractorState) (time : ℤ) :
    ProcAppend (EmitOK time) st.processed (flushText st).processed :=
  (flushText_types st).mono (by rintro a ⟨ts, s, rfl⟩; trivial)

theorem idleCheck_emitOK (st : ExtractorState) (t time : ℤ) :
    ProcAppend (EmitOK time) st.processed (idleCheck st t).processed := by
  rcases idleCheck_cases st t with h | h <;> rw [h]
  · exact flushText_emitOK st time
  · exact ProcAppend.refl _ _

theorem addChar_processed (st : ExtractorState) (time : ℤ) (c : String) :
    (addChar st time c).processed = st.processed := rfl

theorem emitOK_click {t ts x y : ℤ} : EmitOK t (ProcessedEvent.mouseclick ts x y) := by
  simp [EmitOK]

theorem emitOK_hotkey {t : ℤ} {s : String} : EmitOK t (ProcessedEvent.hotkey t s) := by
  simp [EmitOK]

theorem emitOK_wheel {t d : ℤ} : EmitOK t (ProcessedEvent.mousewheel t d) := by
  simp [EmitOK]

theorem emitOK_drag {t ts : ℤ} {pts : List IPoint} (h : 1 < pts.length) :
    EmitOK t (ProcessedEvent.mousedrag ts (resamplePoints pts 8)) := by
  simp only [EmitOK]
  exact ⟨pts, h, rfl⟩

theorem handleMousemove_processed (st : ExtractorState) (e : InputEvent) (time : ℤ) :
    (handleMousemove st e time).processed = st.processed := by
  simp only [handleMousemove]
  split
  · split <;> rfl
  · rfl

theorem handleMousedown_emitOK (st : ExtractorState) (e : InputEvent) (time tgt : ℤ) :
    ProcAppend (EmitOK tgt) st.processed (handleMousedown st e time).processed := by
  have hf := flushText_emitOK st tgt
  simp only [handleMousedown]
  split
  · split
    · exact hf
    · exact hf
  · exact hf

theorem handleMouseup_emitOK (st : ExtractorState) (e : InputEvent) (time tgt : ℤ) :
    ProcAppend (EmitOK tgt) st.processed (handleMouseup st e time).processed := by
  simp only [handleMouseup]
  split
  · split
    · split
      · exact ProcAppend.refl _ _
      · split
        · exact ProcAppend.push _ emitOK_click
        · split
          · exact ProcAppend.push _ (emitOK_drag (by assumption))
          · exact ProcAppend.refl _ _
    · exact ProcAppend.refl _ _
  · exact ProcAppend.refl _ _

theorem handleKeydown_emitOK (st : ExtractorState) (k : String) (time : ℤ) :
    ProcAppend (EmitOK time) st.processed (handleKeydown st k time).processed := by
  simp only [handleKeydown]
  split
  · exact ProcAppend.refl _ _
  · split
    · exact ProcAppend.push _ emitOK_hotkey
    · split
      · exact (flushText_emitOK st time).trans (ProcAppend.push _ emitOK_hotkey)
      · split
        · exact ProcAppend.refl _ _
        · exact ProcAppend.refl _ _

theorem handleKeyup_emitOK (st : ExtractorState) (k : String) (time : ℤ) :
    ProcAppend (EmitOK time) st.processed (handleKeyup st k time).processed := by
  simp only [handleKeyup]
  split
  · split
    · split
      · exact ProcAppend.push _ emitOK_hotkey
      · exact ProcAppend.refl _ _
    · exact ProcAppend.refl _ _
  · exact ProcAppend.refl _ _

theorem handleMousewheel_emitOK (st : ExtractorState) (e : InputEvent) (time : ℤ) :
    ProcAppend (EmitOK time) st.processed (handleMousewheel st e time).processed := by
  have hf := flushText_emitOK st time
  simp only [handleMousewheel]
  split
  · exact hf.trans (ProcAppend.push _ emitOK_wheel)
  · exact hf

theorem stepEvent_emitOK (st : ExtractorState) (e : InputEvent) (epoch : ℤ) :
    ProcAppend (EmitOK (e.time - epoch)) st.processed (stepEvent st e epoch).processed := by
  have h0 := idleCheck_emitOK st (e.time - epoch) (e.time - epoch)
  simp only [stepEvent]
  split
  · rw [handleMousemove_processed]
    exact h0
  · exact h0.trans (handleMousedown_emitOK _ e _ _)
  · exact h0.trans (handleMouseup_emitOK _ e _ _)
  · split
    · split
      · exact h0.trans (handleKeydown_emitOK _ _ _)
      · exact h0
    · exact h0
  · split
    · split
      · exact h0.trans (handleKeyup_emitOK _ _ _)
      · exact h0
    · exact h0
  · exact h0.trans (handleMousewheel_emitOK _ e _)
  · exact h0

theorem resamplePoints_length (pts : List IPoint) (n : ℕ) (h : 1 < pts.length) :
    (resamplePoints pts n).length = n := by
  unfold resamplePoints
  rw [if_neg (by omega)]
  simp

theorem DragsOK.procAppend {l l2 : List ProcessedEvent} {t : ℤ}
    (h : ProcAppend (EmitOK t) l l2) (hd : DragsOK l) : DragsOK l2 := by
  obtain ⟨d, rfl, hdp⟩ := h
  intro a ha ts coords hc
  rcases List.mem_append.1 ha with h' | h'
  · exact hd a h' ts coords hc
  · have he := hdp a h'
    subst hc
    simp only [EmitOK] at he
    obtain ⟨pts, hlen, rfl⟩ := he
    exact resamplePoints_length _ _ hlen

theorem runEvents_dragsOK (es : List InputEvent) :
    ∀ (st : ExtractorState) (epoch : ℤ),
      DragsOK st.processed → DragsOK (runEvents epoch st es).processed := by
  induction es with
  | nil => intro st epoch h; simpa [runEvents] using h
  | cons e rest ih =>
    intro st epoch h
    simp only [runEvents]
    exact ih _ _ (DragsOK.procAppend (stepEvent_emitOK st e epoch) h)

theorem hwStamps_append (l1 l2 : List ProcessedEvent) :
    hwStamps (l1 ++ l2) = hwStamps l1 ++ hwStamps l2 := by
  simp [hwStamps]

theorem hwStamps_procAppend {l l2 : List ProcessedEvent} {t : ℤ}
    (h : ProcAppend (EmitOK t) l l2) :
    ∃ d2, hwStamps l2 = hwStamps l ++ d2 ∧ ∀ x ∈ d2, x = t := by
  obtain ⟨d, rfl, hd⟩ := h
  refine ⟨hwStamps d, hwStamps_append l d, ?_⟩
  intro x hx
  simp only [hwStamps, List.mem_filterMap] at hx
  obtain ⟨a, ha, hfa⟩ := hx
  have he := hd a ha
  cases a with
  | hotkey ts s =>
    simp only [Option.some.injEq] at hfa
    simp only [EmitOK] at he
    omega
  | mousewheel ts dl =>
    simp only [Option.some.injEq] at hfa
    simp only [EmitOK] at he
    omega
  | mouseclick ts x y => simp at hfa
  | mousedrag ts c => simp at hfa
  | type ts s => simp at hfa

theorem hwStamps_of_types {d : List ProcessedEvent}
    (h : ∀ a ∈ d, ∃ ts s, a = ProcessedEvent.type ts s) : hwStamps d = [] := by
  refine List.filterMap_eq_nil_iff.2 ?_
  intro a ha
  obtain ⟨ts, s, rfl⟩ := h a ha
  rfl

theorem runEvents_hwSorted (es : List InputEvent) :
    ∀ (st : ExtractorState) (epoch t : ℤ),
      (hwStamps st.processed).Pairwise (fun a b => a ≤ b) →
      (∀ x ∈ hwStamps st.processed, x ≤ t) →
      es.Pairwise (fun a b => a.time ≤ b.time) →
      (∀ e ∈ es, t ≤ e.time - epoch) →
      (hwStamps (runEvents epoch st es).processed).Pairwise (fun a b => a ≤ b) := by
  induction es with
  | nil =>
    intro st epoch t hs _ _ _
    simpa [runEvents] using hs
  | cons e rest ih =>
    intro st epoch t hs hb hp hlb
    simp only [runEvents]
    obtain ⟨d2, heq, hd2⟩ := hwStamps_procAppend (stepEvent_emitOK st e epoch)
    have ht' : t ≤ e.time - epoch := hlb e (List.mem_cons_self _ _)
    have hp' := List.pairwise_cons.1 hp
    apply ih _ _ (e.time - epoch)
    · rw [heq, List.pairwise_append]
      refine ⟨hs, ?_, ?_⟩
      · refine List.pairwise_iff_forall_sublist.2 ?_
        intro a b hab
        have hmem := hab.subset
        have ha := hd2 a (hmem (by simp))
        have hb2 := hd2 b (hmem (by simp))
        omega
      · intro a ha b hbm
        have := hb a ha
        have := hd2 b hbm
        omega
    · rw [heq]
      intro x hx
      rcases List.mem_append.1 hx with hx1 | hx2
      · have := hb x hx1
        omega
      · have := hd2 x hx2
        omega
    · exact hp'.2
    · intro e' he'
      have := hp'.1 e' he'
      omega

theorem ptDist_nonneg (p q : IPoint) : 0 ≤ ptDist p q := Real.sqrt_nonneg _

theorem cumLen_zero (pts : List IPoint) : cumLen pts 0 = 0 := rfl

theorem cumLen_nonneg (pts : List IPoint) (i : ℕ) : 0 ≤ cumLen pts i := by
  induction i with
  | zero => exact le_of_eq (cumLen_zero pts).symm
  | succ n ih =>
    rw [cumLen]
    exact add_nonneg ih (ptDist_nonneg _ _)

theorem cumLen_mono (pts : List IPoint) : Monotone (cumLen pts) := by
  apply monotone_nat_of_le_succ
  intro i
  rw [cumLen]
  exact le_add_of_nonneg_right (ptDist_nonneg _ _)

theorem findSegIdx_spec (pts : List IPoint) (target : ℝ) (k : ℕ) :
    k ≤ findSegIdx pts target k ∧
    (∀ j, k ≤ j → j < findSegIdx pts target k → j < pts.length ∧ cumLen pts j < target) ∧
    ¬ (findSegIdx pts target k < pts.length ∧ cumLen pts (findSegIdx pts target k) < target) := by
  induction k using findSegIdx.induct pts target with
  | case1 k h ih =>
    rw [findSegIdx, dif_pos h]
    obtain ⟨ih1, ih2, ih3⟩ := ih
    refine ⟨by omega, ?_, ih3⟩
    intro j hj1 hj2
    rcases Nat.eq_or_lt_of_le hj1 with rfl | hlt
    · exact h
    · exact ih2 j hlt hj2
  | case2 k h =>
    rw [findSegIdx, dif_neg h]
    exact ⟨le_refl _, fun j hj1 hj2 => absurd hj2 (by omega), h⟩

theorem coords_eq_of_ptDist_zero {p q : IPoint} (h : ptDist p q = 0) :
    q.x = p.x ∧ q.y = p.y := by
  unfold ptDist at h
  rw [Real.sqrt_eq_zero'] at h
  have hx2 : ((q.x - p.x : ℤ) : ℝ) ^ 2 = 0 := by
    nlinarith [sq_nonneg ((q.x - p.x : ℤ) : ℝ), sq_nonneg ((q.y - p.y : ℤ) : ℝ)]
  have hy2 : ((q.y - p.y : ℤ) : ℝ) ^ 2 = 0 := by
    nlinarith [sq_nonneg ((q.x - p.x : ℤ) : ℝ), sq_nonneg ((q.y - p.y : ℤ) : ℝ)]
  have hx : ((q.x - p.x : ℤ) : ℝ) = 0 := (pow_eq_zero_iff (two_ne_zero)).1 hx2
  have hy : ((q.y - p.y : ℤ) : ℝ) = 0 := (pow_eq_zero_iff (two_ne_zero)).1 hy2
  constructor
  · have h2 : (q.x - p.x : ℤ) = 0 := by exact_mod_cast hx
    omega
  · have h2 : (q.y - p.y : ℤ) = 0 := by exact_mod_cast hy
    omega

theorem coords_const_of_cumLen (pts : List IPoint) (r m : ℕ) (hrm : r ≤ m)
    (h : cumLen pts r = cumLen pts m) :
    (pts.getD r origin).x = (pts.getD m origin).x ∧
    (pts.getD r origin).y = (pts.getD m origin).y := by
  induction m, hrm using Nat.le_induction with
  | base => exact ⟨rfl, rfl⟩
  | succ m hm ih =>
    have hle1 : cumLen pts r ≤ cumLen pts m := cumLen_mono pts hm
    have hle2 : cumLen pts m ≤ cumLen pts (m + 1) := cumLen_mono pts (Nat.le_succ m)
    have hstep : cumLen pts (m + 1) =
        cumLen pts m + ptDist (pts.getD m origin) (pts.getD (m + 1) origin) := by
      rw [cumLen]
    have hmm : cumLen pts r = cumLen pts m := by linarith [le_of_eq h, ge_of_eq h]
    have hd : ptDist (pts.getD m origin) (pts.getD (m + 1) origin) = 0 := by linarith
    obtain ⟨hx1, hy1⟩ := ih hmm
    obtain ⟨hx2, hy2⟩ := coords_eq_of_ptDist_zero hd
    exact ⟨hx1.trans hx2.symm, hy1.trans hy2.symm⟩

theorem findSegIdx_of_nonpos (pts : List IPoint) (target : ℝ) (ht : target ≤ 0) :
    findSegIdx pts target 1 = 1 := by
  rw [findSegIdx, dif_neg]
  rintro ⟨h1, h2⟩
  have := cumLen_nonneg pts 1
  linarith

theorem resampleAt_of_target_zero (pts : List IPoint) (n : ℕ) (total : ℝ) (i : ℕ)
    (ht : ((i : ℝ) / ((n : ℝ) - 1)) * total = 0) :
    resampleAt pts n total i = pts.getD 0 origin := by
  simp only [resampleAt]
  rw [ht, findSegIdx_of_nonpos pts 0 le_rfl]
  norm_num [cumLen_zero]

theorem resamplePoints_nonempty_eq (pts : List IPoint) (n : ℕ) (h : 1 < pts.length) :
    resamplePoints pts n =
      (List.range n).map (resampleAt pts n (cumLen pts (pts.length - 1))) := by
  unfold resamplePoints
  rw [if_neg (by omega)]

theorem resamplePoints_getD (pts : List IPoint) (n i : ℕ) (h : 1 < pts.length)
    (hi : i < n) :
    (resamplePoints pts n).getD i origin =
      resampleAt pts n (cumLen pts (pts.length - 1)) i := by
  rw [resamplePoints_nonempty_eq pts n h,
    List.getD_eq_getElem _ _ (by simpa using hi)]
  simp

theorem resamplePoints_head (pts : List IPoint) (n : ℕ) (h1 : 1 < pts.length)
    (hn : 0 < n) : (resamplePoints pts n).getD 0 origin = pts.getD 0 origin := by
  rw [resamplePoints_getD pts n 0 h1 hn]
  apply resampleAt_of_target_zero
  simp

theorem resamplePoints_of_zero_total (pts : List IPoint) (n : ℕ) (h1 : 1 < pts.length)
    (h0 : cumLen pts (pts.length - 1) = 0) :
    ∀ q ∈ resamplePoints pts n, q = pts.getD 0 origin := by
  rw [resamplePoints_nonempty_eq pts n h1]
  intro q hq
  rw [List.mem_map] at hq
  obtain ⟨i, hi, rfl⟩ := hq
  apply resampleAt_of_target_zero
  rw [h0, mul_zero]

theorem resamplePoints_last (pts : List IPoint) (n : ℕ) (h1 : 1 < pts.length)
    (hn : 2 ≤ n) :
    ((resamplePoints pts n).getD (n - 1) origin).x = (pts.getD (pts.length - 1) origin).x ∧
    ((resamplePoints pts n).getD (n - 1) origin).y = (pts.getD (pts.length - 1) origin).y := by
  rw [resamplePoints_getD pts n (n - 1) h1 (by omega)]
  set total := cumLen pts (pts.length - 1) with htotal
  have hcast : ((n - 1 : ℕ) : ℝ) = (n : ℝ) - 1 := by
    have h2 : (1 : ℕ) ≤ n := by omega
    push_cast [h2]
    ring
  have hne : ((n : ℝ) - 1) ≠ 0 := by
    have h3 : (2 : ℝ) ≤ (n : ℝ) := by exact_mod_cast hn
    linarith
  have htarget : (((n - 1 : ℕ) : ℝ) / ((n : ℝ) - 1)) * total = total := by
    rw [hcast, div_self hne, one_mul]
  simp only [resampleAt]
  rw [htarget]
  obtain ⟨hge, hbelow, hstop⟩ := findSegIdx_spec pts total 1
  set r := findSegIdx pts total 1 with hrdef
  have hr2 : r ≤ pts.length - 1 := by
    by_contra hc
    push_neg at hc
    have hj := hbelow (pts.length - 1) (by omega) (by omega)
    rw [← htotal] at hj
    exact absurd hj.2 (lt_irrefl _)
  have hrlen : r < pts.length := by omega
  have hmono : cumLen pts r ≤ cumLen pts (pts.length - 1) := cumLen_mono pts (by omega)
  rw [← htotal] at hmono
  have hcum : cumLen pts r = total := by
    rcases lt_or_ge (cumLen pts r) total with hlt | hge2
    · exact absurd ⟨hrlen, hlt⟩ hstop
    · linarith
  rcases lt_or_eq_of_le (cumLen_mono pts (show r - 1 ≤ r by omega)) with hlt | heq2
  · have hset : (total - cumLen pts (r - 1)) / (cumLen pts r - cumLen pts (r - 1)) = 1 := by
      rw [hcum]
      refine div_self ?_
      have : cumLen pts (r - 1) < total := by rw [← hcum]; exact hlt
      linarith
    rw [hset]
    have heq3 : ∀ a b : ℝ, a + (b - a) * 1 = b := by intro a b; ring
    rw [heq3, heq3, Int.floor_intCast, Int.floor_intCast]
    have hcc := coords_const_of_cumLen pts r (pts.length - 1) (by omega)
      (by rw [hcum, htotal])
    simpa using hcc
  · have hnum : total - cumLen pts (r - 1) = 0 := by rw [heq2, hcum]; ring
    have hset : (total - cumLen pts (r - 1)) / (cumLen pts r - cumLen pts (r - 1)) = 0 := by
      rw [hnum, zero_div]
    rw [hset]
    have heq4 : ∀ a b : ℝ, a + (b - a) * 0 = a := by intro a b; ring
    rw [heq4, heq4, Int.floor_intCast, Int.floor_intCast]
    have hcc := coords_const_of_cumLen pts (r - 1) (pts.length - 1) (by omega)
      (by rw [heq2, hcum, htotal])
    simpa using hcc

theorem flushText_of_empty (st : ExtractorState) (h : st.currentText = "") :
    flushText st = st := by
  unfold flushText
  rw [if_neg]
  rintro ⟨h1, _⟩
  exact h1 h

theorem flushText_after (st : ExtractorState) (txt : String) (t0 : ℤ)
    (h1 : st.currentText = txt) (h2 : txt ≠ "") (h3 : st.textStartTime = some t0) :
    (flushText st).currentText = "" ∧
    ProcessedEvent.type t0 txt ∈ (flushText st).processed := by
  unfold flushText
  rw [if_pos ⟨by rw [h1]; exact h2, by rw [h3]; simp⟩]
  refine ⟨rfl, ?_⟩
  rw [h1, h3]
  simp

theorem idleCheck_text (st : ExtractorState) (time : ℤ) (txt : String) (t0 : ℤ)
    (h1 : st.currentText = txt) (h2 : txt ≠ "") (h3 : st.textStartTime = some t0) :
    ((idleCheck st time).currentText = "" ∧
      ProcessedEvent.type t0 txt ∈ (idleCheck st time).processed) ∨
    idleCheck st time = st := by
  rcases idleCheck_cases st time with h | h
  · exact Or.inl (h ▸ flushText_after st txt t0 h1 h2 h3)
  · exact Or.inr h

theorem idleCheck_of_gap (st : ExtractorState) (time : ℤ)
    (h1 : st.currentText ≠ "") (h2 : idleGap st.lastKeyTime time = true) :
    idleCheck st time = flushText st := by
  unfold idleCheck
  rw [if_pos ⟨h1, h2⟩]

theorem handleMousedown_processed_eq (st : ExtractorState) (e : InputEvent) (t : ℤ) :
    (handleMousedown st e t).processed = (flushText st).processed := by
  simp only [handleMousedown]
  split
  · split <;> rfl
  · rfl

theorem handleMousedown_currentText (st : ExtractorState) (e : InputEvent) (t : ℤ) :
    (handleMousedown st e t).currentText = (flushText st).currentText := by
  simp only [handleMousedown]
  split
  · split <;> rfl
  · rfl

theorem handleMousewheel_currentText (st : ExtractorState) (e : InputEvent) (t : ℤ) :
    (handleMousewheel st e t).currentText = (flushText st).currentText := by
  simp only [handleMousewheel]
  split <;> rfl

theorem handleMousewheel_mem (st : ExtractorState) (e : InputEvent) (t : ℤ)
    {a : ProcessedEvent} (ha : a ∈ (flushText st).processed) :
    a ∈ (handleMousewheel st e t).processed := by
  simp only [handleMousewheel]
  split
  · exact List.mem_append_left _ ha
  · exact ha

theorem handleMouseup_currentText (st : ExtractorState) (e : InputEvent) (t : ℤ) :
    (handleMouseup st e t).currentText = st.currentText := by
  simp only [handleMouseup]
  split
  · split
    · split
      · rfl
      · split
        · rfl
        · split <;> rfl
    · rfl
  · rfl

theorem handleKeydown_currentText_combo (st : ExtractorState) (k : String) (t : ℤ)
    (h : isComboKey k = true) : (handleKeydown st k t).currentText = st.currentText := by
  simp only [handleKeydown]
  rw [if_pos h]

theorem handleKeydown_chord (st : ExtractorState) (k : String) (t : ℤ)
    (hc : isComboKey k = false) (ha : st.activeModifiers ≠ [])
    (hs : shiftKeyName ∉ st.activeModifiers) :
    handleKeydown st k t =
      { st with
          processed := st.processed ++
            [ProcessedEvent.hotkey t
              (String.intercalate sepDash (st.activeModifiers ++ [toLowerCase k]))],
          activeModifiers := [],
          sequenceModifiers := [] } := by
  simp only [handleKeydown]
  rw [if_neg (by simp [hc]), if_pos ⟨ha, hs⟩]

theorem handleKeydown_special (st : ExtractorState) (k : String) (t : ℤ)
    (hc : isComboKey k = false)
    (hna : ¬(st.activeModifiers ≠ [] ∧ shiftKeyName ∉ st.activeModifiers))
    (hsp : isSpecialKey k = true) :
    handleKeydown st k t =
      { flushText st with
          processed := (flushText st).processed ++ [ProcessedEvent.hotkey t k] } := by
  simp only [handleKeydown]
  rw [if_neg (by simp [hc]), if_neg hna, if_pos hsp]

theorem stepEvent_mousedown (st : ExtractorState) (e : InputEvent) (epoch : ℤ)
    (he : e.event = "mousedown") :
    stepEvent st e epoch = handleMousedown (idleCheck st (e.time - epoch)) e (e.time - epoch) := by
  simp [stepEvent, he]

theorem stepEvent_mouseup (st : ExtractorState) (e : InputEvent) (epoch : ℤ)
    (he : e.event = "mouseup") :
    stepEvent st e epoch = handleMouseup (idleCheck st (e.time - epoch)) e (e.time - epoch) := by
  simp [stepEvent, he]

theorem stepEvent_mousewheel (st : ExtractorState) (e : InputEvent) (epoch : ℤ)
    (he : e.event = "mousewheel") :
    stepEvent st e epoch = handleMousewheel (idleCheck st (e.time - epoch)) e (e.time - epoch) := by
  simp [stepEvent, he]

theorem stepEvent_keydown (st : ExtractorState) (e : InputEvent) (epoch : ℤ) (k : String)
    (he : e.event = "keydown") (hk : e.data.key = some k) (hk0 : k ≠ "") :
    stepEvent st e epoch = handleKeydown (idleCheck st (e.time - epoch)) k (e.time - epoch) := by
  simp [stepEvent, he, hk, hk0]

theorem stepEvent_processed_super (st : ExtractorState) (e : InputEvent) (epoch : ℤ)
    {a : ProcessedEvent} (ha : a ∈ (idleCheck st (e.time - epoch)).processed) :
    a ∈ (stepEvent st e epoch).processed := by
  simp only [stepEvent]
  split
  · rw [handleMousemove_processed]
    exact ha
  · exact (handleMousedown_emitOK _ e _ 0).mem_left ha
  · exact (handleMouseup_emitOK _ e _ 0).mem_left ha
  · split
    · split
      · exact (handleKeydown_emitOK _ _ _).mem_left ha
      · exact ha
    · exact ha
  · split
    · split
      · exact (handleKeyup_emitOK _ _ _).mem_left ha
      · exact ha
    · exact ha
  · exact (handleMousewheel_emitOK _ e _).mem_left ha
  · exact ha

/-- Claim C1 (amended): on a keydown of a non-modifier key, if the held
modifier set is non-empty and does not CONTAIN `Shift`, the engine emits a
`Hotkey` whose combo is the held modifiers (capture order) joined with the
lowercased final key, stamped at the current relative time, and clears both
the held and sequence modifier sets.  (The original claim's "does not
consist solely of Shift" is wrong: the source tests
`!activeModifiers.has('Shift')`, so a held set containing Shift next to
Ctrl emits no hotkey — see the counterexample.) -/
theorem c1_chord_hotkey (st : ExtractorState) (e : InputEvent) (epoch : ℤ) (k : String)
    (he : e.event = "keydown") (hk : e.data.key = some k) (hk0 : k ≠ "")
    (hc : isComboKey k = false) (ha : st.activeModifiers ≠ [])
    (hs : shiftKeyName ∉ st.activeModifiers) :
    stepEvent st e epoch =
      { idleCheck st (e.time - epoch) with
          processed := (idleCheck st (e.time - epoch)).processed ++
            [ProcessedEvent.hotkey (e.time - epoch)
              (String.intercalate sepDash (st.activeModifiers ++ [toLowerCase k]))],
          activeModifiers := [],
          sequenceModifiers := [] } := by
  rw [stepEvent_keydown st e epoch k he hk hk0,
    handleKeydown_chord _ k _ hc
      (by rw [idleCheck_activeModifiers]; exact ha)
      (by rw [idleCheck_activeModifiers]; exact hs),
    idleCheck_activeModifiers]

/-- Claim C5 (amended): for a left-button mouseup with recorded down
position, down time `dt` (the JS truthiness guard additionally requires
`dt ≠ 0`, i.e. the mousedown was not at the session epoch) and a known
last position: distance exactly 5 with duration exactly 500 emits a Click
at the down time/position; distance 6 with duration ≤ 500 and at least two
accumulated samples emits a Drag of the resampled accumulated path
instead. -/
theorem c5_click_drag (st : ExtractorState) (e : InputEvent) (epoch : ℤ)
    (dpos lpos : ℤ × ℤ) (dt : ℤ)
    (he : e.event = "mouseup") (hb : e.data.button = some leftButtonName)
    (hdp : st.mouseDownPos = some dpos) (hdt : st.mouseDownTime = some dt)
    (hdt0 : dt ≠ 0) (hlp : st.lastKnownPos = some lpos) :
    (posDist dpos lpos = 5 → e.time - epoch - dt = 500 →
      (stepEvent st e epoch).processed =
        (idleCheck st (e.time - epoch)).processed ++
          [ProcessedEvent.mouseclick dt dpos.1 dpos.2]) ∧
    (posDist dpos lpos = 6 → e.time - epoch - dt ≤ 500 → 1 < st.accumulatedPoints.length →
      (stepEvent st e epoch).processed =
        (idleCheck st (e.time - epoch)).processed ++
          [ProcessedEvent.mousedrag dt (resamplePoints st.accumulatedPoints 8)]) := by
  rw [stepEvent_mouseup st e epoch he]
  have hdp1 : (idleCheck st (e.time - epoch)).mouseDownPos = some dpos := by
    rw [idleCheck_mouseDownPos]; exact hdp
  have hdt1 : (idleCheck st (e.time - epoch)).mouseDownTime = some dt := by
    rw [idleCheck_mouseDownTime]; exact hdt
  have hlp1 : (idleCheck st (e.time - epoch)).lastKnownPos = some lpos := by
    rw [idleCheck_lastKnownPos]; exact hlp
  have hacc : (idleCheck st (e.time - epoch)).accumulatedPoints = st.accumulatedPoints :=
    idleCheck_accumulatedPoints st (e.time - epoch)
  constructor
  · intro hd5 hdur
    simp only [handleMouseup, hb, hdp1, hdt1, hlp1, if_pos]
    rw [if_neg hdt0, if_pos ⟨by unfold distLE clickThresholdPx; rw [hd5]; norm_num,
      by unfold clickThresholdMs; omega⟩]
  · intro hd6 hdur hlen
    simp only [handleMouseup, hb, hdp1, hdt1, hlp1, if_pos]
    rw [if_neg hdt0, if_neg (by
      rintro ⟨hdle, _⟩
      unfold distLE clickThresholdPx at hdle
      rw [hd6] at hdle
      norm_num at hdle), hacc, if_pos hlen]

/-- Claim C6 (amended): pending typed text (with a recorded start time) is
flushed as a `Type` action when a mousedown or mousewheel event is
processed, when a special non-combo key is processed outside the chord
branch, when the idle gap since the last key exceeds 1000 ms before any
next event, and at the end of the stream.  A left mouseup does NOT flush
(its handler never touches the text buffer), and neither a modifier
keydown nor a chord-completing keydown flushes: both leave `currentText`
exactly as the idle check left it. -/
theorem c6_flush_conditions (st : ExtractorState) (e : InputEvent) (epoch : ℤ)
    (txt : String) (t0 : ℤ)
    (htxt : st.currentText = txt) (hne : txt ≠ "") (ht0 : st.textStartTime = some t0) :
    (e.event = "mousedown" →
      (stepEvent st e epoch).currentText = "" ∧
      ProcessedEvent.type t0 txt ∈ (stepEvent st e epoch).processed) ∧
    (e.event = "mousewheel" →
      (stepEvent st e epoch).currentText = "" ∧
      ProcessedEvent.type t0 txt ∈ (stepEvent st e epoch).processed) ∧
    (∀ k : String, e.event = "keydown" → e.data.key = some k → k ≠ "" →
      isComboKey k = false →
      ¬(st.activeModifiers ≠ [] ∧ shiftKeyName ∉ st.activeModifiers) →
      isSpecialKey k = true →
      (stepEvent st e epoch).currentText = "" ∧
      ProcessedEvent.type t0 txt ∈ (stepEvent st e epoch).processed) ∧
    (idleGap st.lastKeyTime (e.time - epoch) = true →
      ProcessedEvent.type t0 txt ∈ (stepEvent st e epoch).processed) ∧
    (e.event = "mouseup" →
      (stepEvent st e epoch).currentText = (idleCheck st (e.time - epoch)).currentText) ∧
    (∀ k : String, e.event = "keydown" → e.data.key = some k → k ≠ "" →
      isComboKey k = true →
      (stepEvent st e epoch).currentText = (idleCheck st (e.time - epoch)).currentText) ∧
    (∀ k : String, e.event = "keydown" → e.data.key = some k → k ≠ "" →
      isComboKey k = false → st.activeModifiers ≠ [] → shiftKeyName ∉ st.activeModifiers →
      (stepEvent st e epoch).currentText = (idleCheck st (e.time - epoch)).currentText) ∧
    (∀ (es : List InputEvent) (hne2 : es ≠ []) (t1 : ℤ) (txt1 : String),
      (runEvents (es.head hne2).time initState es).currentText = txt1 → txt1 ≠ "" →
      (runEvents (es.head hne2).time initState es).textStartTime = some t1 →
      ProcessedEvent.type t1 txt1 ∈ processEvents es) := by
  refine ⟨?h1, ?h2, ?h3, ?h4, ?h5, ?h6, ?h7, ?h8⟩
  case h1 =>
    intro he
    rw [stepEvent_mousedown st e epoch he]
    rcases idleCheck_text st (e.time - epoch) txt t0 htxt hne ht0 with ⟨hc1, hm1⟩ | hid
    · constructor
      · rw [handleMousedown_currentText, flushText_of_empty _ hc1, hc1]
      · rw [handleMousedown_processed_eq, flushText_of_empty _ hc1]
        exact hm1
    · rw [hid]
      obtain ⟨hc1, hm1⟩ := flushText_after st txt t0 htxt hne ht0
      constructor
      · rw [handleMousedown_currentText]
        exact hc1
      · rw [handleMousedown_processed_eq]
        exact hm1
  case h2 =>
    intro he
    rw [stepEvent_mousewheel st e epoch he]
    rcases idleCheck_text st (e.time - epoch) txt t0 htxt hne ht0 with ⟨hc1, hm1⟩ | hid
    · constructor
      · rw [handleMousewheel_currentText, flushText_of_empty _ hc1, hc1]
      · apply handleMousewheel_mem
        rw [flushText_of_empty _ hc1]
        exact hm1
    · rw [hid]
      obtain ⟨hc1, hm1⟩ := flushText_after st txt t0 htxt hne ht0
      exact ⟨by rw [handleMousewheel_currentText]; exact hc1, handleMousewheel_mem _ e _ hm1⟩
  case h3 =>
    intro k he hk hk0 hc hna hsp
    rw [stepEvent_keydown st e epoch k he hk hk0]
    have hna1 : ¬((idleCheck st (e.time - epoch)).activeModifiers ≠ [] ∧
        shiftKeyName ∉ (idleCheck st (e.time - epoch)).activeModifiers) := by
      rw [idleCheck_activeModifiers]
      exact hna
    rw [handleKeydown_special _ k _ hc hna1 hsp]
    rcases idleCheck_text st (e.time - epoch) txt t0 htxt hne ht0 with ⟨hc1, hm1⟩ | hid
    · constructor
      · show (flushText (idleCheck st (e.time - epoch))).currentText = ""
        rw [flushText_of_empty _ hc1, hc1]
      · show ProcessedEvent.type t0 txt ∈
          (flushText (idleCheck st (e.time - epoch))).processed ++
            [ProcessedEvent.hotkey (e.time - epoch) k]
        rw [flushText_of_empty _ hc1]
        exact List.mem_append_left _ hm1
    · rw [hid]
      obtain ⟨hc1, hm1⟩ := flushText_after st txt t0 htxt hne ht0
      exact ⟨hc1, List.mem_append_left _ hm1⟩
  case h4 =>
    intro hgap
    apply stepEvent_processed_super
    rw [idleCheck_of_gap st _ (by rw [htxt]; exact hne) hgap]
    exact (flushText_after st txt t0 htxt hne ht0).2
  case h5 =>
    intro he
    rw [stepEvent_mouseup st e epoch he, handleMouseup_currentText]
  case h6 =>
    intro k he hk hk0 hcombo
    rw [stepEvent_keydown st e epoch k he hk hk0,
      handleKeydown_currentText_combo _ k _ hcombo]
  case h7 =>
    intro k he hk hk0 hc ha hs
    rw [stepEvent_keydown st e epoch k he hk hk0,
      handleKeydown_chord _ k _ hc
        (by rw [idleCheck_activeModifiers]; exact ha)
        (by rw [idleCheck_activeModifiers]; exact hs)]
  case h8 =>
    intro es hne2 t1 txt1 hcur hne1 hts
    cases es with
    | nil => exact absurd rfl hne2
    | cons e0 rest =>
      show ProcessedEvent.type t1 txt1 ∈
        (flushText (runEvents e0.time initState (e0 :: rest))).processed
      exact (flushText_after _ txt1 t1 hcur hne1 hts).2

/-- Claim C2 (amended): for inputs with non-decreasing times, the actions
that are stamped at their triggering event's time — `Hotkey` and `Scroll`
(mousewheel) — appear with non-decreasing timestamps in emission order.
Global monotonicity over all actions is false: `Type`, `Click` and `Drag`
are stamped at their start-of-action time and can follow a later-stamped
action (see the counterexample). -/
theorem c2_hw_sorted (es : List InputEvent)
    (h : es.Pairwise (fun a b => a.time ≤ b.time)) :
    (hwStamps (processEvents es)).Pairwise (fun a b => a ≤ b) := by
  cases es with
  | nil => simp [processEvents, hwStamps]
  | cons e0 rest =>
    have hlb : ∀ e ∈ e0 :: rest, (0 : ℤ) ≤ e.time - e0.time := by
      intro e he
      rcases List.mem_cons.1 he with rfl | hr
      · omega
      · have := (List.pairwise_cons.1 h).1 e hr
        omega
    have hrun := runEvents_hwSorted (e0 :: rest) initState e0.time 0
      (by simp [initState, hwStamps]) (by simp [initState, hwStamps]) h hlb
    obtain ⟨d, heq, hd⟩ := flushText_types (runEvents e0.time initState (e0 :: rest))
    show (hwStamps (flushText (runEvents e0.time initState (e0 :: rest))).processed).Pairwise
      (fun a b => a ≤ b)
    rw [heq, hwStamps_append, hwStamps_of_types hd, List.append_nil]
    exact hrun

/-- Claim C10: every Drag (`mousedrag`) action emitted by `processEvents`
carries exactly 8 coordinate points: the drag branch requires at least two
accumulated samples, always calls the resampler with the default count 8,
and the resampler returns exactly `numPoints` points for inputs of length
greater than 1. -/
theorem c10_all_drags (es : List InputEvent) (ts : ℤ) (coords : List IPoint)
    (h : ProcessedEvent.mousedrag ts coords ∈ processEvents es) : coords.length = 8 := by
  cases es with
  | nil => simp [processEvents] at h
  | cons e0 rest =>
    have h1 : DragsOK (runEvents e0.time initState (e0 :: rest)).processed := by
      apply runEvents_dragsOK
      intro a ha ts2 c2 hc
      simp [initState] at ha
    have h2 : DragsOK (flushText (runEvents e0.time initState (e0 :: rest))).processed :=
      DragsOK.procAppend (flushText_emitOK _ 0) h1
    exact h2 _ h ts coords rfl

theorem c4_total_zero : cumLen c4path (c4path.length - 1) = 0 := by
  show cumLen c4path (0 + 1) = 0
  rw [cumLen, cumLen_zero]
  unfold ptDist c4path
  norm_num

theorem c5_dist_five : posDist (0, 0) (3, 4) = 5 := by
  unfold posDist
  norm_num
  rw [show ((25 : ℝ)) = 5 ^ 2 by norm_num, Real.sqrt_sq (by norm_num)]

theorem c5_dist_six : posDist (0, 0) (6, 0) = 6 := by
  unfold posDist
  norm_num
  rw [show ((36 : ℝ)) = 6 ^ 2 by norm_num, Real.sqrt_sq (by norm_num)]

/-- Claim C1 counterexample: with LeftCtrl and Shift both held, a keydown
of `C` emits no `Hotkey` at all — the source requires the held set not to
contain `Shift`, so the key is routed to the typing branch and the session
ends with a single `Type "C"` action. -/
theorem c1_counterexample :
    processEvents c1cex = [ProcessedEvent.type 20 ("C")] ∧
    ∀ a ∈ processEvents c1cex, a.isHotkey = false := by
  decide

/-- Claim C1 witness: the amended chord rule applied to a concrete state
holding LeftCtrl, on keydown of `C` at relative time 7. -/
theorem c1_chord_hotkey_witness :
    c1wState.activeModifiers ≠ [] ∧ shiftKeyName ∉ c1wState.activeModifiers ∧
    stepEvent c1wState (kdown 7 ("C")) 0 =
      { idleCheck c1wState ((kdown 7 ("C")).time - 0) with
          processed := (idleCheck c1wState ((kdown 7 ("C")).time - 0)).processed ++
            [ProcessedEvent.hotkey ((kdown 7 ("C")).time - 0)
              (String.intercalate sepDash (c1wState.activeModifiers ++ [toLowerCase ("C")]))],
          activeModifiers := [],
          sequenceModifiers := [] } :=
  ⟨by decide, by decide,
    c1_chord_hotkey c1wState (kdown 7 ("C")) 0 ("C") rfl rfl (by decide) (by decide)
      (by decide) (by decide)⟩

/-- Claim C2 counterexample: typing `a`, then pressing Ctrl and `C`, emits
the hotkey at relative time 20 and only afterwards flushes the buffered
text with its earlier start timestamp 0 — the output timestamps `[20, 0]`
are not monotone even though the input times are non-decreasing. -/
theorem c2_counterexample :
    (c2cex.map InputEvent.time).Pairwise (fun a b => a ≤ b) ∧
    processEvents c2cex =
      [ProcessedEvent.hotkey 20 ("LeftCtrl-c"), ProcessedEvent.type 0 ("a")] ∧
    ¬ ((processEvents c2cex).map ProcessedEvent.timestamp).Pairwise (fun a b => a ≤ b) := by
  decide

/-- Claim C2 witness: the amended monotonicity applied to the concrete
Ctrl-C run. -/
theorem c2_hw_sorted_witness :
    c8run.Pairwise (fun a b => a.time ≤ b.time) ∧
    (hwStamps (processEvents c8run)).Pairwise (fun a b => a ≤ b) :=
  ⟨by decide, c2_hw_sorted c8run (by decide)⟩

/-- Claim C4: under the exact-arithmetic model (where `0 / 0 = 0`), a path
of length > 1 with total arc length 0 resamples to copies of the first
input point, as the spec states.  The JavaScript source instead computes
`t = 0/0 = NaN` here and floors `NaN`, so every output coordinate of the
real program is `NaN` — the code diverges from the spec's explicit
degenerate-case sentence on exactly these inputs. -/
theorem c4_zero_arclength (pts : List IPoint) (n : ℕ) (h1 : 1 < pts.length)
    (h0 : cumLen pts (pts.length - 1) = 0) :
    ∀ q ∈ resamplePoints pts n, q = pts.getD 0 origin :=
  resamplePoints_of_zero_total pts n h1 h0

/-- Claim C4 witness: the degenerate-case statement at a concrete
two-point spatially-coincident path. -/
theorem c4_zero_arclength_witness :
    (1 < c4path.length ∧ cumLen c4path (c4path.length - 1) = 0) ∧
    ∀ q ∈ resamplePoints c4path 8, q = c4path.getD 0 origin :=
  ⟨⟨by decide, c4_total_zero⟩, c4_zero_arclength c4path 8 (by decide) c4_total_zero⟩

/-- Claim C5 counterexample: a down/up pair with known down position,
distance exactly 5 (from (0,0) to (3,4)) and duration exactly 500 ms emits
NO click, because the mousedown fell on the session epoch: its recorded
relative down time `0` is falsy in the JS guard
`mouseDownPos && mouseDownTime && lastKnownPos`, so the whole mouseup
branch is skipped and the output is empty. -/
theorem c5_counterexample :
    posDist (0, 0) (3, 4) = 5 ∧ processEvents c5cex = [] :=
  ⟨c5_dist_five, by decide⟩

/-- Claim C5 witness: the click half at distance 5 / duration 500 and the
drag half at distance 6 / duration 200 with two accumulated samples. -/
theorem c5_click_drag_witness :
    (posDist (0, 0) (3, 4) = 5 ∧
      (stepEvent c5wStateA (mup 600) 0).processed =
        (idleCheck c5wStateA ((mup 600).time - 0)).processed ++
          [ProcessedEvent.mouseclick 100 0 0]) ∧
    (posDist (0, 0) (6, 0) = 6 ∧ 1 < c5wStateB.accumulatedPoints.length ∧
      (stepEvent c5wStateB (mup 300) 0).processed =
        (idleCheck c5wStateB ((mup 300).time - 0)).processed ++
          [ProcessedEvent.mousedrag 100 (resamplePoints c5wStateB.accumulatedPoints 8)]) :=
  ⟨⟨c5_dist_five,
    (c5_click_drag c5wStateA (mup 600) 0 (0, 0) (3, 4) 100 rfl rfl rfl rfl (by decide)
      rfl).1 c5_dist_five (by decide)⟩,
   ⟨c5_dist_six, by decide,
    (c5_click_drag c5wStateB (mup 300) 0 (0, 0) (6, 0) 100 rfl rfl rfl rfl (by decide)
      rfl).2 c5_dist_six (by decide) (by decide)⟩⟩

/-- Claim C6 counterexample: a left mouseup does not flush pending text.
Text `a` typed while the button is down survives the mouseup (which emits
the click) and is merged with the later `b` into a single
`Type "ab"` — had the mouseup flushed, two separate `Type` actions would
appear. -/
theorem c6_counterexample :
    processEvents c6cex =
      [ProcessedEvent.mouseclick 10 0 0, ProcessedEvent.type 15 ("ab")] := by
  decide

/-- Claim C6 witness: the flush conditions applied at concrete states —
mousedown flushes, mouseup preserves the buffer, a chord-completing
keydown preserves the buffer, and the end of stream flushes. -/
theorem c6_flush_conditions_witness :
    ((stepEvent c6wState (mdown 10) 0).currentText = "" ∧
      ProcessedEvent.type 3 ("hi") ∈ (stepEvent c6wState (mdown 10) 0).processed) ∧
    ((stepEvent c6wState (mup 20) 0).currentText =
      (idleCheck c6wState ((mup 20).time - 0)).currentText) ∧
    ((stepEvent c6wState2 (kdown 20 ("C")) 0).currentText =
      (idleCheck c6wState2 ((kdown 20 ("C")).time - 0)).currentText) ∧
    ProcessedEvent.type 0 ("a") ∈ processEvents [kdown 0 ("A")] :=
  ⟨(c6_flush_conditions c6wState (mdown 10) 0 ("hi") 3 rfl (by decide) rfl).1 rfl,
   (c6_flush_conditions c6wState (mup 20) 0 ("hi") 3 rfl (by decide) rfl).2.2.2.2.1 rfl,
   (c6_flush_conditions c6wState2 (kdown 20 ("C")) 0 ("hi") 3 rfl (by decide)
     rfl).2.2.2.2.2.2.1 ("C") rfl rfl (by decide) (by decide) (by decide) (by decide),
   (c6_flush_conditions c6wState (mdown 10) 0 ("hi") 3 rfl (by decide)
     rfl).2.2.2.2.2.2.2 [kdown 0 ("A")] (by decide) 0 ("a") (by decide) (by decide)
     (by decide)⟩

/-- Claim C7 counterexample: the literal two-event input — mousedown at
t=0 carrying coordinates (10,10), mouseup at t=100 — produces no actions:
the mousedown handler ignores the event's own coordinates and requires a
previously known position (`lastKnownPos`), which no prior mousemove has
set. -/
theorem c7_counterexample :
    processEvents c7cex = [] ∧
    processEvents c7cex ≠ [ProcessedEvent.mouseclick 0 10 10] := by
  decide

/-- Claim C7 (amended): with the position (10,10) established by a prior
mousemove at the epoch and the mousedown strictly after the epoch (so its
relative down time is non-zero and survives the JS truthiness guard), the
down/up pair yields exactly one Click at the down time. -/
theorem c7_amended : processEvents c7ok = [ProcessedEvent.mouseclick 5 10 10] := by
  decide

/-- Claim C8: keydown LeftCtrl at 0, keydown C at 10, keyup C at 20, keyup
LeftCtrl at 30 produces exactly one Hotkey, at timestamp 10, and nothing
further on release (the sequence set was cleared when the chord fired). -/
theorem c8_single_hotkey :
    processEvents c8run = [ProcessedEvent.hotkey 10 ("LeftCtrl-c")] := by
  decide

/-- Claim C9: processing the empty event sequence returns the empty action
sequence (the function is total — no failure). -/
theorem c9_empty_input : processEvents [] = [] := rfl

/-- Claim C10 witness: a concrete run emitting a drag (two spatially
coincident samples, duration above the click threshold), whose resampled
coordinate list has length 8 by the claim theorem. -/
theorem c10_all_drags_witness :
    ProcessedEvent.mousedrag 10 (resamplePoints c10path 8) ∈ processEvents c10run ∧
    (resamplePoints c10path 8).length = 8 := by
  have hmem : ProcessedEvent.mousedrag 10 (resamplePoints c10path 8) ∈ processEvents c10run := by
    have heq : processEvents c10run =
        [ProcessedEvent.mousedrag 10 (resamplePoints c10path 8)] := rfl
    rw [heq]
    exact List.mem_singleton_self _
  exact ⟨hmem, c10_all_drags c10run 10 (resamplePoints c10path 8) hmem⟩

theorem findSegIdxIEEE_none (pts : List IPoint) (k : ℕ) :
    findSegIdxIEEE pts none k = k := by
  rw [findSegIdxIEEE, dif_neg]
  rintro ⟨h1, h2⟩
  exact h2

theorem findSegIdxIEEE_some (pts : List IPoint) (x : ℝ) (k : ℕ) :
    findSegIdxIEEE pts (some x) k = findSegIdx pts x k := by
  induction k using findSegIdxIEEE.induct pts (some x) with
  | case1 k h ih =>
    rw [findSegIdxIEEE, dif_pos h, ih]
    conv_rhs => rw [findSegIdx]
    rw [dif_pos ⟨h.1, h.2⟩]
  | case2 k h =>
    rw [findSegIdxIEEE, dif_neg h, findSegIdx, dif_neg (fun hc => h ⟨hc.1, hc.2⟩)]

theorem resamplePointsIEEE_nonempty_eq (pts : List IPoint) (n : ℕ) (h : 1 < pts.length) :
    resamplePointsIEEE pts n =
      (List.range n).map (resampleAtIEEE pts n (cumLen pts (pts.length - 1))) := by
  unfold resamplePointsIEEE
  rw [if_neg (by omega)]

theorem resamplePointsIEEE_length (pts : List IPoint) (n : ℕ) (h : 1 < pts.length) :
    (resamplePointsIEEE pts n).length = n := by
  rw [resamplePointsIEEE_nonempty_eq pts n h]
  simp

theorem resamplePointsIEEE_getD (pts : List IPoint) (n i : ℕ) (h : 1 < pts.length)
    (hi : i < n) :
    (resamplePointsIEEE pts n).getD i ⟨none, none, none⟩ =
      resampleAtIEEE pts n (cumLen pts (pts.length - 1)) i := by
  rw [resamplePointsIEEE_nonempty_eq pts n h,
    List.getD_eq_getElem _ _ (by simpa using hi)]
  simp

theorem nmul_none_left (a : Option ℝ) : nmul none a = none := by cases a <;> rfl

theorem nmul_none_right (a : Option ℝ) : nmul a none = none := by cases a <;> rfl

theorem nadd_none_right (a : Option ℝ) : nadd a none = none := by cases a <;> rfl

theorem nsub_none_left (a : Option ℝ) : nsub none a = none := by cases a <;> rfl

theorem ndiv_none_left (a : Option ℝ) : ndiv none a = none := by cases a <;> rfl

theorem nfloor_none : nfloor none = none := rfl

theorem nadd_some (a b : ℝ) : nadd (some a) (some b) = some (a + b) := rfl

theorem nsub_some (a b : ℝ) : nsub (some a) (some b) = some (a - b) := rfl

theorem nmul_some (a b : ℝ) : nmul (some a) (some b) = some (a * b) := rfl

theorem nfloor_some (a : ℝ) : nfloor (some a) = some ⌊a⌋ := rfl

theorem ndiv_some (a b : ℝ) (h : b ≠ 0) : ndiv (some a) (some b) = some (a / b) := by
  simp only [ndiv]
  rw [if_neg h]

theorem ndiv_zero_den (a b : ℝ) (h : b = 0) : ndiv (some a) (some b) = none := by
  simp only [ndiv]
  rw [if_pos h]

theorem c3_cex_evalIEEE : resamplePointsIEEE c3path 1 = [⟨none, none, none⟩] := by
  rw [resamplePointsIEEE_nonempty_eq c3path 1 (by decide),
    show List.range 1 = [0] from rfl]
  show [resampleAtIEEE c3path 1 (cumLen c3path (c3path.length - 1)) 0] = [⟨none, none, none⟩]
  simp only [resampleAtIEEE]
  rw [ndiv_zero_den _ _ (by norm_num)]
  simp [nmul_none_left, findSegIdxIEEE_none, nsub_none_left, ndiv_none_left,
    nmul_none_right, nadd_none_right, nfloor_none]

theorem resampleAtIEEE_head (pts : List IPoint) (n : ℕ) (total : ℝ)
    (hn : 2 ≤ n) (hseg : cumLen pts 1 ≠ 0) :
    resampleAtIEEE pts n total 0 = (pts.getD 0 origin).toNPoint := by
  have hne : ((n : ℝ) - 1) ≠ 0 := by
    have h2 : (2 : ℝ) ≤ (n : ℝ) := by exact_mod_cast hn
    linarith
  simp only [resampleAtIEEE]
  rw [ndiv_some _ _ hne, nmul_some,
    show ((0 : ℕ) : ℝ) / ((n : ℝ) - 1) * total = 0 from by norm_num,
    findSegIdxIEEE_some, findSegIdx_of_nonpos pts 0 le_rfl]
  norm_num [cumLen_zero, nsub_some]
  rw [ndiv_some _ _ hseg]
  norm_num [nmul_some, nadd_some, nfloor_some, IPoint.toNPoint]

theorem resampleAtIEEE_last (pts : List IPoint) (n : ℕ) (h1 : 1 < pts.length) (hn : 2 ≤ n)
    (htot : cumLen pts (pts.length - 1) ≠ 0) :
    (resampleAtIEEE pts n (cumLen pts (pts.length - 1)) (n - 1)).x =
      some ((pts.getD (pts.length - 1) origin).x) ∧
    (resampleAtIEEE pts n (cumLen pts (pts.length - 1)) (n - 1)).y =
      some ((pts.getD (pts.length - 1) origin).y) := by
  set total := cumLen pts (pts.length - 1) with htotal
  have hne : ((n : ℝ) - 1) ≠ 0 := by
    have h2 : (2 : ℝ) ≤ (n : ℝ) := by exact_mod_cast hn
    linarith
  have hcast : ((n - 1 : ℕ) : ℝ) = (n : ℝ) - 1 := by
    have h2 : (1 : ℕ) ≤ n := by omega
    push_cast [h2]
    ring
  have h0tot : 0 ≤ total := by
    rw [htotal]
    exact cumLen_nonneg pts (pts.length - 1)
  have htpos : 0 < total := lt_of_le_of_ne h0tot (Ne.symm htot)
  simp only [resampleAtIEEE]
  rw [ndiv_some _ _ hne, nmul_some,
    show ((n - 1 : ℕ) : ℝ) / ((n : ℝ) - 1) * total = total from by
      rw [hcast, div_self hne, one_mul],
    findSegIdxIEEE_some]
  obtain ⟨hge, hbelow, hstop⟩ := findSegIdx_spec pts total 1
  set r := findSegIdx pts total 1 with hrdef
  have hr2 : r ≤ pts.length - 1 := by
    by_contra hc
    push_neg at hc
    have hj := hbelow (pts.length - 1) (by omega) (by omega)
    rw [← htotal] at hj
    exact absurd hj.2 (lt_irrefl _)
  have hrlen : r < pts.length := by omega
  have hmono : cumLen pts r ≤ cumLen pts (pts.length - 1) := cumLen_mono pts (by omega)
  rw [← htotal] at hmono
  have hcum : cumLen pts r = total := by
    rcases lt_or_ge (cumLen pts r) total with hlt | hge2
    · exact absurd ⟨hrlen, hlt⟩ hstop
    · linarith
  have hstart : cumLen pts (r - 1) < total := by
    rcases Nat.eq_or_lt_of_le hge with heq | hlt2
    · rw [← heq]
      show cumLen pts 0 < total
      rw [cumLen_zero]
      exact htpos
    · exact (hbelow (r - 1) (by omega) (by omega)).2
  have hdenne : cumLen pts r - cumLen pts (r - 1) ≠ 0 := by
    rw [hcum]
    intro hc
    have : cumLen pts (r - 1) = total := by linarith
    linarith
  rw [show nsub (some total) (some (cumLen pts (r - 1))) =
      some (total - cumLen pts (r - 1)) from rfl,
    ndiv_some _ _ hdenne, hcum,
    show (total - cumLen pts (r - 1)) / (total - cumLen pts (r - 1)) = 1 from
      div_self (by
        intro hc
        have h3 : cumLen pts (r - 1) = total := by linarith
        linarith)]
  have heq3 : ∀ a b : ℝ, a + (b - a) * 1 = b := by intro a b; ring
  simp only [nsub_some, nmul_some, nadd_some, heq3, nfloor_some, Int.floor_intCast]
  have hcc := coords_const_of_cumLen pts r (pts.length - 1) (by omega)
    (by rw [hcum, htotal])
  exact ⟨by rw [hcc.1], by rw [hcc.2]⟩

theorem c3_first_seg_ne_zero : cumLen c3path 1 ≠ 0 := by
  show cumLen c3path (0 + 1) ≠ 0
  rw [cumLen, cumLen_zero, zero_add]
  unfold ptDist c3path
  norm_num

/-- Claim C3 counterexample: at target count `n = 1` the program computes
`targetLength = (0 / (1 - 1)) * totalLength = NaN`, the segment search
stops immediately (a comparison against NaN is false), the interpolation
parameter is NaN again, and `Math.floor(NaN) = NaN`: the single returned
point has NaN coordinates.  Its `x` is therefore neither the path's last
`x = 3` nor even its first `x = 0` — the claim's endpoint property fails
at `n = 1`. -/
theorem c3_counterexample :
    resamplePointsIEEE c3path 1 = [⟨none, none, none⟩] ∧
    ∀ q ∈ resamplePointsIEEE c3path 1,
      q.x ≠ some ((c3path.getD (c3path.length - 1) origin).x) ∧
      q.x ≠ some ((c3path.getD 0 origin).x) := by
  refine ⟨c3_cex_evalIEEE, ?_⟩
  rw [c3_cex_evalIEEE]
  intro q hq
  rw [List.mem_singleton] at hq
  subst hq
  exact ⟨by simp, by simp⟩

/-- Claim C3 (amended), stated over the NaN-faithful translation: for
every path of length > 1, `resamplePoints(path, n)` returns exactly `n`
points for every target count `n`; and for every `n ≥ 2`, if the path's
first segment has nonzero length the first returned point equals the
path's first point, and if the path's total arc length is nonzero the last
returned point has the same `x` and `y` as the path's last point.  (At
`n = 1`, and for the first endpoint when the first segment is degenerate,
the program's interpolation parameter is `0 / 0 = NaN`, which is what
forces these side conditions — see the counterexample.) -/
theorem c3_amended (pts : List IPoint) (n : ℕ) (h1 : 1 < pts.length) :
    (resamplePointsIEEE pts n).length = n ∧
    (2 ≤ n → cumLen pts 1 ≠ 0 →
      (resamplePointsIEEE pts n).getD 0 ⟨none, none, none⟩ =
        (pts.getD 0 origin).toNPoint) ∧
    (2 ≤ n → cumLen pts (pts.length - 1) ≠ 0 →
      ((resamplePointsIEEE pts n).getD (n - 1) ⟨none, none, none⟩).x =
        some ((pts.getD (pts.length - 1) origin).x) ∧
      ((resamplePointsIEEE pts n).getD (n - 1) ⟨none, none, none⟩).y =
        some ((pts.getD (pts.length - 1) origin).y)) := by
  refine ⟨resamplePointsIEEE_length pts n h1, ?_, ?_⟩
  · intro hn hseg
    rw [resamplePointsIEEE_getD pts n 0 h1 (by omega)]
    exact resampleAtIEEE_head pts n _ hn hseg
  · intro hn htot
    rw [resamplePointsIEEE_getD pts n (n - 1) h1 (by omega)]
    exact resampleAtIEEE_last pts n h1 hn htot

/-- Claim C3 witness: the amended statement at the concrete two-point path
(total length `3`, first segment nonzero) and the default count 8. -/
theorem c3_amended_witness :
    (1 < c3path.length ∧ 2 ≤ 8 ∧ cumLen c3path 1 ≠ 0 ∧
      cumLen c3path (c3path.length - 1) ≠ 0) ∧
    ((resamplePointsIEEE c3path 8).length = 8 ∧
     (resamplePointsIEEE c3path 8).getD 0 ⟨none, none, none⟩ =
       (c3path.getD 0 origin).toNPoint ∧
     ((resamplePointsIEEE c3path 8).getD (8 - 1) ⟨none, none, none⟩).x =
       some ((c3path.getD (c3path.length - 1) origin).x) ∧
     ((resamplePointsIEEE c3path 8).getD (8 - 1) ⟨none, none, none⟩).y =
       some ((c3path.getD (c3path.length - 1) origin).y)) := by
  have htot : cumLen c3path (c3path.length - 1) ≠ 0 := c3_first_seg_ne_zero
  refine ⟨⟨by decide, by decide, c3_first_seg_ne_zero, htot⟩, ?_⟩
  obtain ⟨hl, hh, hlast⟩ := c3_amended c3path 8 (by decide)
  exact ⟨hl, hh (by norm_num) c3_first_seg_ne_zero,
    (hlast (by norm_num) htot).1, (hlast (by norm_num) htot).2⟩
